import Mathlib

/-!
# lsx86features, `demo-asm/main.c`

A shallow embedding of `main` of `demo-asm/main.c`: the three 16-element float
arrays, the dispatch on `argv[1]` to one of the three external SIMD kernels, and
the printing loop.

* The memory of `main` is the three arrays `x_1`, `x_2`, `result`; a pointer is an
  array together with an element offset (`&result[4]` is `⟨.result, 4⟩`).
* The kernels `add_arrays_sse`, `add_arrays_avx2`, `add_arrays_avx512` are
  `extern`: `main` is parametrised by them (`Kernels`), and every call is
  recorded in a trace.
* The element type `float` is a type parameter `F`; section `F32` gives IEEE-754
  binary32 with round-to-nearest-even addition for the statements that need
  concrete float values.
* A command-line argument is a `String` holding the bytes before the
  terminating NUL, so `strcmp (s, t) == 0` is `s = t`.
-/

namespace Lsx86features

/-! ## Memory -/

/-- The three arrays declared in `main`. -/
inductive Arr where
  | x_1
  | x_2
  | result
deriving DecidableEq, Repr

/-- A `float *` into one of the arrays: `&arr[off]`. -/
structure Ptr where
  arr : Arr
  off : Nat
deriving DecidableEq, Repr

/-- Pointer arithmetic `p + n` (in elements). -/
def Ptr.idx (p : Ptr) (n : Nat) : Ptr := ⟨p.arr, p.off + n⟩

/-- Contents of the arrays: `m arr i` is `arr[i]`.  Offsets `i ≥ 16` lie outside
the 16-element arrays. -/
abbrev Mem (F : Type) := Arr → Nat → F

/-- Read `*p`. -/
def Mem.load {F : Type} (m : Mem F) (p : Ptr) : F := m p.arr p.off

/-- The 16 elements of an array, in index order. -/
def Mem.elems {F : Type} (m : Mem F) (arr : Arr) : List F :=
  (List.range 16).map (m arr)

/-- The memory with the contents of `x_1` and `x_2` exchanged. -/
def Mem.swapOperands {F : Type} (m : Mem F) : Mem F
  | .x_1 => m .x_2
  | .x_2 => m .x_1
  | .result => m .result

/-! ## Kernels -/

/-- An external kernel `void k(float result[], float x_1[], float x_2[])`:
a function from the memory before the call and the three pointer arguments to
the memory after the call. -/
abbrev Kernel (F : Type) := Mem F → Ptr → Ptr → Ptr → Mem F

/-- The three `extern` kernels declared in lines 6-8. -/
structure Kernels (F : Type) where
  add_arrays_sse : Kernel F
  add_arrays_avx2 : Kernel F
  add_arrays_avx512 : Kernel F

/-- The kernel contract assumed of a width-`W` kernel: it writes
`dst[i] = a[i] + b[i]` for every `i` in `[0, W)` and nothing else. -/
def KernelContract {F : Type} (W : Nat) (add : F → F → F) (k : Kernel F) : Prop :=
  ∀ (m : Mem F) (dst a b : Ptr),
    (∀ i, i < W → (k m dst a b).load (dst.idx i) = add (m.load (a.idx i)) (m.load (b.idx i))) ∧
    (∀ arr j, ¬ (arr = dst.arr ∧ dst.off ≤ j ∧ j < dst.off + W) → k m dst a b arr j = m arr j)

/-- Modelled from the spec: the body of the kernels `add_arrays_sse`,
`add_arrays_avx2`, `add_arrays_avx512` (width `W` = 4, 8, 16), whose assembly
sources are not part of `main.c`.  Spec 4.1: "for i in [0, W),
dst[i] = a[i] + b[i]"; "the only observable effect is the write to dst".
The `W` elements of `a` and `b` are loaded from the memory before the call. -/
def add_arrays {F : Type} (W : Nat) (add : F → F → F) : Kernel F :=
  fun m dst a b arr j =>
    if arr = dst.arr ∧ dst.off ≤ j ∧ j < dst.off + W then
      add (m.load (a.idx (j - dst.off))) (m.load (b.idx (j - dst.off)))
    else m arr j

/-- Modelled from the spec: the three kernels over one element addition `add`,
of native widths 4 (128-bit), 8 (256-bit) and 16 (512-bit). -/
def specKernels {F : Type} (add : F → F → F) : Kernels F where
  add_arrays_sse := add_arrays 4 add
  add_arrays_avx2 := add_arrays 8 add
  add_arrays_avx512 := add_arrays 16 add

/-! ## Process state -/

/-- Which kernel a call went to. -/
inductive KernelId where
  | sse
  | avx2
  | avx512
deriving DecidableEq, Repr

/-- Native width of a kernel, in floats: the stride of its calls in `main`
(lines 21-24, 26-27, 29), i.e. 128, 256 and 512 bits. -/
def KernelId.width : KernelId → Nat
  | .sse => 4
  | .avx2 => 8
  | .avx512 => 16

/-- One kernel invocation: the callee and its three pointer arguments. -/
structure Call where
  kernel : KernelId
  dst : Ptr
  a : Ptr
  b : Ptr
deriving DecidableEq, Repr

/-- State of the process: array contents, the kernel calls made so far (oldest
first), and what has been written to the two output streams. -/
structure State (F : Type) where
  mem : Mem F
  calls : List Call
  stdout : String
  stderr : String

/-- Control after a statement: still running, or the process has exited. -/
inductive Ctl (F : Type) where
  | running (s : State F)
  | exited (status : Nat) (s : State F)

/-- Select a kernel by its id. -/
def Kernels.get {F : Type} (ks : Kernels F) : KernelId → Kernel F
  | .sse => ks.add_arrays_sse
  | .avx2 => ks.add_arrays_avx2
  | .avx512 => ks.add_arrays_avx512

/-- A call statement `k(dst, a, b);`. -/
def invoke {F : Type} (ks : Kernels F) (k : KernelId) (dst a b : Ptr) (s : State F) : State F :=
  { s with mem := ks.get k s.mem dst a b, calls := s.calls ++ [⟨k, dst, a, b⟩] }

/-- The value of `EXIT_FAILURE` of `<stdlib.h>`. -/
def EXIT_FAILURE : Nat := 1

/-- The function `errx(status, fmt, ...)` of `<err.h>`, `msg` being the formatted
message: the program name, a colon and a space, the message and a newline go
to stderr, and the process exits with `status`. -/
def errx {F : Type} (progname : String) (status : Nat) (msg : String) (s : State F) : Ctl F :=
  .exited status { s with stderr := s.stderr ++ (progname ++ ": " ++ msg ++ "\n") }

/-- The mode strings compared against `argv[1]` in lines 20, 25 and 28. -/
def supportedModes : List String := ["sse", "avx2", "avx512"]

/-! ## `main` -/

/-- Lines 20-32 of `main`: the dispatch on `argv[1]`.  `argc` is `argv.length`. -/
def dispatch {F : Type} (ks : Kernels F) (progname : String) (argv : List String)
    (s : State F) : Ctl F :=
  if argv.length ≤ 1 ∨ argv[1]? = some "sse" then
    .running (s
      |> invoke ks .sse ⟨.result, 0⟩ ⟨.x_1, 0⟩ ⟨.x_2, 0⟩
      |> invoke ks .sse ⟨.result, 4⟩ ⟨.x_1, 4⟩ ⟨.x_2, 4⟩
      |> invoke ks .sse ⟨.result, 8⟩ ⟨.x_1, 8⟩ ⟨.x_2, 8⟩
      |> invoke ks .sse ⟨.result, 12⟩ ⟨.x_1, 12⟩ ⟨.x_2, 12⟩)
  else if argv[1]? = some "avx2" then
    .running (s
      |> invoke ks .avx2 ⟨.result, 0⟩ ⟨.x_1, 0⟩ ⟨.x_2, 0⟩
      |> invoke ks .avx2 ⟨.result, 8⟩ ⟨.x_1, 8⟩ ⟨.x_2, 8⟩)
  else if argv[1]? = some "avx512" then
    .running (s |> invoke ks .avx512 ⟨.result, 0⟩ ⟨.x_1, 0⟩ ⟨.x_2, 0⟩)
  else
    errx progname EXIT_FAILURE ("invalid algorithm: " ++ argv.getD 1 "") s

/-- The initialiser of `x_1` (line 12). -/
def x_1_init : List Nat := [1, 2, 3, 4, 5, 6, 7, 8, 9, 10, 11, 12, 13, 14, 15, 16]

/-- The initialiser of `x_2` (line 15). -/
def x_2_init : List Nat := [2, 1, 4, 3, 6, 5, 8, 7, 10, 9, 12, 11, 14, 13, 16, 15]

/-- The arrays as initialised in lines 11-18; `lit` converts an integer constant
to `float`.  `result` is zero-initialised. -/
def initMem {F : Type} (lit : Nat → F) : Mem F
  | .x_1 => fun i => lit (x_1_init.getD i 0)
  | .x_2 => fun i => lit (x_2_init.getD i 0)
  | .result => fun _ => lit 0

/-- The third printf argument in line 37, `2 * (i / 2) + 3`. -/
def expected (i : Nat) : Nat := 2 * (i / 2) + 3

/-- What `printf("result[%ld] = %.02f == %ld\n", i, v, e)` writes; `fmt` is the
`%.02f` conversion of libc. -/
def printf_line {F : Type} (fmt : F → String) (i : Nat) (v : F) (e : Nat) : String :=
  "result[" ++ toString i ++ "] = " ++ fmt v ++ " == " ++ toString e ++ "\n"

/-- Lines 34-39: `for (size_t i = ...; i < 16; i++) printf(...)`, entered at `i`. -/
def printLoop {F : Type} (fmt : F → String) (i : Nat) (s : State F) : State F :=
  if i < 16 then
    printLoop fmt (i + 1)
      { s with stdout := s.stdout ++ printf_line fmt i (s.mem .result i) (expected i) }
  else s
termination_by 16 - i

/-- The state in which `main` reaches line 20. -/
def initState {F : Type} (lit : Nat → F) : State F :=
  { mem := initMem lit, calls := [], stdout := "", stderr := "" }

/-- The function `main`: exit status and final state of the process. -/
def main {F : Type} (ks : Kernels F) (lit : Nat → F) (fmt : F → String)
    (progname : String) (argv : List String) : Nat × State F :=
  match dispatch ks progname argv (initState lit) with
  | .exited status s => (status, s)
  | .running s => (0, printLoop fmt 0 s)

/-! ## binary32 -/

/-- Modelled from the spec: the element type `float`, IEEE-754 binary32, which
`main.c` uses but does not define.  A datum is a NaN (the payload is not
represented, spec 8.2 "ignoring NaN payload bit patterns"), an infinity, or a
finite number with sign `neg`, biased exponent `e` in `[0, 254]` and 23-bit
fraction `m`. -/
inductive F32 where
  | nan
  | inf (neg : Bool)
  | fin (neg : Bool) (e : Fin 255) (m : Fin 8388608)
deriving DecidableEq, Repr

namespace F32

/-- Magnitude of a finite binary32 in units of `2^-149`: `m` for a subnormal
(`e = 0`), `(2^23 + m) * 2^(e-1)` for a normal number. -/
def mag (e : Fin 255) (m : Fin 8388608) : Nat :=
  if e.val = 0 then m.val else (8388608 + m.val) * 2 ^ (e.val - 1)

/-- Signed value of a finite binary32 in units of `2^-149`. -/
def toInt (neg : Bool) (e : Fin 255) (m : Fin 8388608) : Int :=
  if neg then - (mag e m : Int) else (mag e m : Int)

/-- The least `j ≥ k` with `n < 2^(24+j)` among the next `cnt` candidates, else `k + cnt`. -/
def findExp : Nat → Nat → Nat → Nat
  | 0, k, _ => k
  | cnt + 1, k, n => if n < 2 ^ (24 + k) then k else findExp cnt (k + 1) n

/-- Round the magnitude `n` (in units of `2^-149`) to binary32, to nearest with
ties to even; magnitudes that round to `2^128` or more overflow to infinity. -/
def round (neg : Bool) (n : Nat) : F32 :=
  if h : n < 8388608 then .fin neg 0 ⟨n, h⟩
  else
    let k := findExp 254 0 n
    let q := n / 2 ^ k
    let r := n % 2 ^ k
    let q1 := if 2 ^ k < 2 * r ∨ (2 * r = 2 ^ k ∧ q % 2 = 1) then q + 1 else q
    let k1 := if q1 = 16777216 then k + 1 else k
    if h : k1 + 1 < 255 then .fin neg ⟨k1 + 1, h⟩ ⟨q1 % 8388608, Nat.mod_lt _ (by decide)⟩
    else .inf neg

/-- Modelled from the spec: IEEE-754 binary32 addition (spec 4.1: "standard
IEEE-754 single-precision addition (NaN/Inf propagate per IEEE-754 rules)"),
round to nearest, ties to even.  An exact zero sum is `-0` only when both
operands are negative. -/
def add : F32 → F32 → F32
  | .nan, _ => .nan
  | _, .nan => .nan
  | .inf s, .inf t => if s = t then .inf s else .nan
  | .inf s, .fin _ _ _ => .inf s
  | .fin _ _ _, .inf t => .inf t
  | .fin s e m, .fin t f n =>
    let z := toInt s e m + toInt t f n
    if z = 0 then .fin (s && t) 0 0 else round (decide (z < 0)) z.natAbs

/-- Conversion of a non-negative integer constant to `float`. -/
def ofNat (n : Nat) : F32 := round false (n * 2 ^ 149)

/-- The 32-bit encoding (a NaN is shown as the default quiet NaN). -/
def toBits : F32 → Nat
  | .nan => 0x7FC00000
  | .inf s => (if s then 2 ^ 31 else 0) + 255 * 2 ^ 23
  | .fin s e m => (if s then 2 ^ 31 else 0) + e.val * 2 ^ 23 + m.val

end F32

/-- The memory in which `result[i] = x_1[i] + x_2[i]` for `i < n` and everything
else is as in `m`. -/
def sumUpTo {F : Type} (add : F → F → F) (n : Nat) (m : Mem F) : Mem F :=
  fun arr j => if arr = .result ∧ j < n then add (m .x_1 j) (m .x_2 j) else m arr j

/-- The memory in which `result[i] = x_1[i] + x_2[i]` for `i < 16` and everything
else is as in `m`. -/
def sumMem {F : Type} (add : F → F → F) (m : Mem F) : Mem F := sumUpTo add 16 m

/-- Number of calls to kernel `k` in a trace. -/
def countCalls (k : KernelId) (cs : List Call) : Nat :=
  (cs.filter (fun c => c.kernel = k)).length

/-- Index `i` lies in the range `[offset, offset + W)` written by call `c`. -/
def Call.covers (c : Call) (i : Nat) : Prop :=
  c.dst.off ≤ i ∧ i < c.dst.off + c.kernel.width

instance (c : Call) (i : Nat) : Decidable (c.covers i) := by
  unfold Call.covers; infer_instance

/-- The chunking discipline of a trace `cs` for kernel `k` of width `W`: the
calls go to `k` at offsets `0, W, 2W, ...` below 16 in increasing order, each
with `dst = result + offset`, `a = x_1 + offset`, `b = x_2 + offset`; the written
ranges are pairwise disjoint, lie within `[0, 16)`, and every index below 16 is
in the range of exactly one call. -/
def Chunked (k : KernelId) (cs : List Call) : Prop :=
  cs.map (fun c => c.dst.off) = (List.range (16 / k.width)).map (fun n => n * k.width) ∧
  (∀ c ∈ cs, c.dst.off < 16 ∧ c = ⟨k, ⟨.result, c.dst.off⟩, ⟨.x_1, c.dst.off⟩, ⟨.x_2, c.dst.off⟩⟩) ∧
  cs.Pairwise (fun c d => c.dst.off < d.dst.off ∧ ∀ i, ¬ (c.covers i ∧ d.covers i)) ∧
  (∀ c ∈ cs, ∀ i, c.covers i → i < 16) ∧
  (∀ i, i < 16 → (cs.filter (fun c => c.covers i)).length = 1)

/-- State after the dispatch for a kernel set obeying the contract for `add`. -/
def sumState {F : Type} (add : F → F → F) (s : State F) (cs : List Call) : State F :=
  { s with mem := sumMem add s.mem, calls := s.calls ++ cs }

/-- The calls of the `"sse"` branch, lines 21-24. -/
def sseCalls : List Call :=
  [⟨.sse, ⟨.result, 0⟩, ⟨.x_1, 0⟩, ⟨.x_2, 0⟩⟩, ⟨.sse, ⟨.result, 4⟩, ⟨.x_1, 4⟩, ⟨.x_2, 4⟩⟩,
   ⟨.sse, ⟨.result, 8⟩, ⟨.x_1, 8⟩, ⟨.x_2, 8⟩⟩, ⟨.sse, ⟨.result, 12⟩, ⟨.x_1, 12⟩, ⟨.x_2, 12⟩⟩]

/-- The calls of the `"avx2"` branch, lines 26-27. -/
def avx2Calls : List Call :=
  [⟨.avx2, ⟨.result, 0⟩, ⟨.x_1, 0⟩, ⟨.x_2, 0⟩⟩, ⟨.avx2, ⟨.result, 8⟩, ⟨.x_1, 8⟩, ⟨.x_2, 8⟩⟩]

/-- The call of the `"avx512"` branch, line 29. -/
def avx512Calls : List Call :=
  [⟨.avx512, ⟨.result, 0⟩, ⟨.x_1, 0⟩, ⟨.x_2, 0⟩⟩]

/-! ## Kernel lemmas -/

theorem add_arrays_contract {F : Type} (W : Nat) (add : F → F → F) :
    KernelContract W add (add_arrays W add) := by
  intro m dst a b
  refine ⟨fun i hi => ?_, fun arr j h => ?_⟩
  · have h : dst.off ≤ dst.off + i ∧ dst.off + i < dst.off + W := ⟨by omega, by omega⟩
    simp [add_arrays, Mem.load, Ptr.idx, h]
  · simp [add_arrays, h]

theorem contract_eq_add_arrays {F : Type} {W : Nat} {add : F → F → F} {k : Kernel F}
    (h : KernelContract W add k) : k = add_arrays W add := by
  funext m dst a b arr j
  obtain ⟨hw, hframe⟩ := h m dst a b
  by_cases hc : arr = dst.arr ∧ dst.off ≤ j ∧ j < dst.off + W
  · obtain ⟨rfl, h1, h2⟩ := hc
    have := hw (j - dst.off) (by omega)
    simp only [Mem.load, Ptr.idx] at this
    have e : dst.off + (j - dst.off) = j := by omega
    rw [e] at this
    simp [add_arrays, h1, h2, this, Mem.load, Ptr.idx]
  · rw [hframe arr j hc]
    simp [add_arrays, hc]

/-! ## The dispatch with kernels that obey the contract -/

theorem sumUpTo_zero {F : Type} (add : F → F → F) (m : Mem F) : sumUpTo add 0 m = m := by
  funext arr j
  simp [sumUpTo]

theorem add_arrays_sumUpTo {F : Type} (W n : Nat) (add : F → F → F) (m : Mem F) :
    add_arrays W add (sumUpTo add n m) ⟨.result, n⟩ ⟨.x_1, n⟩ ⟨.x_2, n⟩ = sumUpTo add (n + W) m := by
  funext arr j
  cases arr
  · simp [add_arrays, sumUpTo]
  · simp [add_arrays, sumUpTo]
  · simp only [add_arrays, sumUpTo, Mem.load, Ptr.idx, true_and]
    by_cases h1 : j < n
    · have h2 : ¬ (n ≤ j ∧ j < n + W) := by omega
      have h3 : j < n + W := by omega
      simp [h1, h2, h3]
    · by_cases h2 : j < n + W
      · have h3 : n ≤ j ∧ j < n + W := ⟨by omega, h2⟩
        have h4 : n + (j - n) = j := by omega
        simp [h1, h2, h3, h4]
      · have h3 : ¬ (n ≤ j ∧ j < n + W) := by omega
        simp [h1, h2, h3]

theorem sse_mem {F : Type} (add : F → F → F) (m : Mem F) :
    add_arrays 4 add (add_arrays 4 add (add_arrays 4 add (add_arrays 4 add m
      ⟨.result, 0⟩ ⟨.x_1, 0⟩ ⟨.x_2, 0⟩) ⟨.result, 4⟩ ⟨.x_1, 4⟩ ⟨.x_2, 4⟩)
      ⟨.result, 8⟩ ⟨.x_1, 8⟩ ⟨.x_2, 8⟩) ⟨.result, 12⟩ ⟨.x_1, 12⟩ ⟨.x_2, 12⟩ = sumMem add m := by
  have h0 := add_arrays_sumUpTo 4 0 add m
  have h4 := add_arrays_sumUpTo 4 4 add m
  have h8 := add_arrays_sumUpTo 4 8 add m
  have h12 := add_arrays_sumUpTo 4 12 add m
  rw [sumUpTo_zero] at h0
  rw [h0, h4, h8, h12]
  rfl

theorem avx2_mem {F : Type} (add : F → F → F) (m : Mem F) :
    add_arrays 8 add (add_arrays 8 add m ⟨.result, 0⟩ ⟨.x_1, 0⟩ ⟨.x_2, 0⟩)
      ⟨.result, 8⟩ ⟨.x_1, 8⟩ ⟨.x_2, 8⟩ = sumMem add m := by
  have h0 := add_arrays_sumUpTo 8 0 add m
  have h8 := add_arrays_sumUpTo 8 8 add m
  rw [sumUpTo_zero] at h0
  rw [h0, h8]
  rfl

theorem avx512_mem {F : Type} (add : F → F → F) (m : Mem F) :
    add_arrays 16 add m ⟨.result, 0⟩ ⟨.x_1, 0⟩ ⟨.x_2, 0⟩ = sumMem add m := by
  have h0 := add_arrays_sumUpTo 16 0 add m
  rw [sumUpTo_zero] at h0
  rw [h0]
  rfl

/-- The argument vector selects the `"sse"` branch, the `"avx2"` branch, the
`"avx512"` branch, or none. -/
theorem dispatch_spec_running {F : Type} (add : F → F → F) (progname : String)
    (argv : List String) (s : State F)
    (h : argv.length ≤ 1 ∨ ∃ mode ∈ supportedModes, argv[1]? = some mode) :
    ∃ cs, dispatch (specKernels add) progname argv s = .running (sumState add s cs) := by
  unfold dispatch
  split_ifs with h1 h2 h3
  · exact ⟨sseCalls, by simp [invoke, Kernels.get, specKernels, sumState, sse_mem, sseCalls]⟩
  · exact ⟨avx2Calls, by simp [invoke, Kernels.get, specKernels, sumState, avx2_mem, avx2Calls]⟩
  · exact ⟨avx512Calls, by simp [invoke, Kernels.get, specKernels, sumState, avx512_mem, avx512Calls]⟩
  · exfalso
    rcases h with h | ⟨mode, hm, he⟩
    · exact h1 (Or.inl h)
    · simp only [supportedModes, List.mem_cons, List.mem_singleton, List.not_mem_nil, or_false] at hm
      rcases hm with rfl | rfl | rfl
      · exact h1 (Or.inr he)
      · exact h2 he
      · exact h3 he

/-! ## The branches of the dispatch, for arbitrary kernels -/

theorem dispatch_sse {F : Type} (ks : Kernels F) (progname : String) (argv : List String)
    (s : State F) (h : argv.length ≤ 1 ∨ argv[1]? = some "sse") :
    dispatch ks progname argv s = .running (s
      |> invoke ks .sse ⟨.result, 0⟩ ⟨.x_1, 0⟩ ⟨.x_2, 0⟩
      |> invoke ks .sse ⟨.result, 4⟩ ⟨.x_1, 4⟩ ⟨.x_2, 4⟩
      |> invoke ks .sse ⟨.result, 8⟩ ⟨.x_1, 8⟩ ⟨.x_2, 8⟩
      |> invoke ks .sse ⟨.result, 12⟩ ⟨.x_1, 12⟩ ⟨.x_2, 12⟩) := by
  unfold dispatch
  rw [if_pos h]

theorem dispatch_avx2 {F : Type} (ks : Kernels F) (progname arg0 : String) (rest : List String)
    (s : State F) :
    dispatch ks progname (arg0 :: "avx2" :: rest) s = .running (s
      |> invoke ks .avx2 ⟨.result, 0⟩ ⟨.x_1, 0⟩ ⟨.x_2, 0⟩
      |> invoke ks .avx2 ⟨.result, 8⟩ ⟨.x_1, 8⟩ ⟨.x_2, 8⟩) := by
  unfold dispatch
  simp

theorem dispatch_avx512 {F : Type} (ks : Kernels F) (progname arg0 : String) (rest : List String)
    (s : State F) :
    dispatch ks progname (arg0 :: "avx512" :: rest) s =
      .running (s |> invoke ks .avx512 ⟨.result, 0⟩ ⟨.x_1, 0⟩ ⟨.x_2, 0⟩) := by
  unfold dispatch
  simp

theorem dispatch_invalid {F : Type} (ks : Kernels F) (progname arg0 arg : String)
    (rest : List String) (s : State F) (h : arg ∉ supportedModes) :
    dispatch ks progname (arg0 :: arg :: rest) s =
      .exited EXIT_FAILURE
        { s with stderr := s.stderr ++ (progname ++ ": " ++ ("invalid algorithm: " ++ arg) ++ "\n") } := by
  simp only [supportedModes, List.mem_cons, List.mem_singleton, List.not_mem_nil, or_false,
    not_or] at h
  obtain ⟨h1, h2, h3⟩ := h
  unfold dispatch
  simp [h1, h2, h3, errx]

/-- Shape of an argument vector: no mode argument, or a first argument. -/
theorem argv_cases (argv : List String) :
    argv.length ≤ 1 ∨ ∃ arg0 arg rest, argv = arg0 :: arg :: rest := by
  rcases argv with _ | ⟨a, _ | ⟨b, r⟩⟩
  · exact Or.inl (by simp)
  · exact Or.inl (by simp)
  · exact Or.inr ⟨a, b, r, rfl⟩

/-! ## The printing loop -/

theorem string_join_cons (a : String) (l : List String) :
    String.join (a :: l) = a ++ String.join l := by
  have h : ∀ (l : List String) (acc : String),
      List.foldl (fun r s => r ++ s) acc l = acc ++ List.foldl (fun r s => r ++ s) "" l := by
    intro l
    induction l with
    | nil => intro acc; simp
    | cons b l ih =>
      intro acc
      simp only [List.foldl_cons]
      rw [ih (acc ++ b), ih ("" ++ b), String.empty_append, String.append_assoc]
  simp only [String.join, List.foldl_cons]
  rw [h l ("" ++ a), String.empty_append]

theorem printLoop_eq {F : Type} (fmt : F → String) :
    ∀ (n i : Nat) (s : State F), i + n = 16 →
      printLoop fmt i s = { s with stdout := (s.stdout ++
        String.join ((List.range' i n).map
          (fun j => printf_line fmt j (s.mem .result j) (expected j)))) } := by
  intro n
  induction n with
  | zero =>
    intro i s h
    have hi : ¬ i < 16 := by omega
    rw [printLoop, if_neg hi]
    simp [String.join]
  | succ n ih =>
    intro i s h
    have hi : i < 16 := by omega
    rw [printLoop, if_pos hi, ih (i + 1) _ (by omega)]
    simp only [List.range'_succ, List.map_cons, string_join_cons, String.append_assoc]

theorem main_of_running {F : Type} (ks : Kernels F) (lit : Nat → F) (fmt : F → String)
    (progname : String) (argv : List String) (s : State F)
    (h : dispatch ks progname argv (initState lit) = .running s) :
    main ks lit fmt progname argv = (0, { s with stdout := (s.stdout ++
        String.join ((List.range 16).map
          (fun j => printf_line fmt j (s.mem .result j) (expected j)))) }) := by
  unfold main
  rw [h]
  simp only
  rw [printLoop_eq fmt 16 0 s (by omega), List.range_eq_range']

/-- A successful dispatch: the branch taken, as the kernel and its calls. -/
theorem dispatch_supported {F : Type} (ks : Kernels F) (progname : String)
    (argv : List String) (s : State F)
    (h : argv.length ≤ 1 ∨ ∃ mode ∈ supportedModes, argv[1]? = some mode) :
    ∃ s', dispatch ks progname argv s = .running s' ∧ s'.stdout = s.stdout ∧
      s'.stderr = s.stderr ∧
      (s'.calls = s.calls ++ sseCalls ∨ s'.calls = s.calls ++ avx2Calls ∨
        s'.calls = s.calls ++ avx512Calls) := by
  rcases argv_cases argv with h1 | ⟨arg0, arg, rest, rfl⟩
  · exact ⟨_, dispatch_sse ks progname argv s (Or.inl h1), rfl, rfl, Or.inl (by simp [invoke, sseCalls])⟩
  · rcases h with h | ⟨mode, hm, he⟩
    · simp at h
    · simp only [List.getElem?_cons_succ, List.getElem?_cons_zero, Option.some.injEq] at he
      subst he
      simp only [supportedModes, List.mem_cons, List.mem_singleton, List.not_mem_nil,
        or_false] at hm
      rcases hm with rfl | rfl | rfl
      · exact ⟨_, dispatch_sse ks progname _ s (Or.inr (by simp)), rfl, rfl,
          Or.inl (by simp [invoke, sseCalls])⟩
      · exact ⟨_, dispatch_avx2 ks progname arg0 rest s, rfl, rfl,
          Or.inr (Or.inl (by simp [invoke, avx2Calls]))⟩
      · exact ⟨_, dispatch_avx512 ks progname arg0 rest s, rfl, rfl,
          Or.inr (Or.inr (by simp [invoke, avx512Calls]))⟩

theorem kernels_eq_spec {F : Type} (ks : Kernels F) (add : F → F → F)
    (hsse : KernelContract 4 add ks.add_arrays_sse)
    (havx2 : KernelContract 8 add ks.add_arrays_avx2)
    (havx512 : KernelContract 16 add ks.add_arrays_avx512) : ks = specKernels add := by
  cases ks
  simp only [specKernels, Kernels.mk.injEq]
  exact ⟨contract_eq_add_arrays hsse, contract_eq_add_arrays havx2,
    contract_eq_add_arrays havx512⟩

theorem sumMem_result {F : Type} (add : F → F → F) (m : Mem F) (i : Nat) (hi : i < 16) :
    sumMem add m .result i = add (m .x_1 i) (m .x_2 i) := by
  simp [sumMem, sumUpTo, hi]

theorem sumMem_operands {F : Type} (add : F → F → F) (m : Mem F) (i : Nat) :
    sumMem add m .x_1 i = m .x_1 i ∧ sumMem add m .x_2 i = m .x_2 i := by
  simp [sumMem, sumUpTo]

/-! ## Claims -/

/-- C1: for every supported mode and all operand arrays, if each kernel of width `W`
writes `dst[i] = a[i] + b[i]` for `i` in `[0, W)` and nothing else, the dispatch
branch of `main` returns with `result[i] = A[i] + B[i]` for every `i` in `[0, 16)`,
whatever `result` held before; the operands are left as they were. -/
theorem dispatch_computes_sums {F : Type} (ks : Kernels F) (add : F → F → F)
    (hsse : KernelContract 4 add ks.add_arrays_sse)
    (havx2 : KernelContract 8 add ks.add_arrays_avx2)
    (havx512 : KernelContract 16 add ks.add_arrays_avx512)
    (progname arg0 mode : String) (rest : List String) (hmode : mode ∈ supportedModes)
    (s : State F) :
    ∃ s', dispatch ks progname (arg0 :: mode :: rest) s = .running s' ∧
      (∀ i, i < 16 → s'.mem .result i = add (s.mem .x_1 i) (s.mem .x_2 i)) ∧
      (∀ i, s'.mem .x_1 i = s.mem .x_1 i ∧ s'.mem .x_2 i = s.mem .x_2 i) := by
  rw [kernels_eq_spec ks add hsse havx2 havx512]
  obtain ⟨cs, h⟩ := dispatch_spec_running add progname (arg0 :: mode :: rest) s
    (Or.inr ⟨mode, hmode, by simp⟩)
  exact ⟨_, h, fun i hi => sumMem_result add s.mem i hi, fun i => sumMem_operands add s.mem i⟩

/-- Witness of C1: the width-4, 8 and 16 model kernels over addition of naturals,
mode `"avx2"`, on the arrays of `main`. -/
theorem dispatch_computes_sums_witness :
    KernelContract 4 Nat.add (specKernels Nat.add).add_arrays_sse ∧
    KernelContract 8 Nat.add (specKernels Nat.add).add_arrays_avx2 ∧
    KernelContract 16 Nat.add (specKernels Nat.add).add_arrays_avx512 ∧
    "avx2" ∈ supportedModes ∧
    ∃ s', dispatch (specKernels Nat.add) "demo" ("demo" :: "avx2" :: []) (initState id)
        = .running s' ∧
      (∀ i, i < 16 → s'.mem .result i
        = Nat.add ((initState id).mem .x_1 i) ((initState id).mem .x_2 i)) ∧
      (∀ i, s'.mem .x_1 i = (initState id).mem .x_1 i ∧
        s'.mem .x_2 i = (initState id).mem .x_2 i) :=
  ⟨add_arrays_contract 4 Nat.add, add_arrays_contract 8 Nat.add,
    add_arrays_contract 16 Nat.add, by decide,
    dispatch_computes_sums (specKernels Nat.add) Nat.add (add_arrays_contract 4 Nat.add)
      (add_arrays_contract 8 Nat.add) (add_arrays_contract 16 Nat.add) "demo" "demo" "avx2" []
      (by decide) (initState id)⟩

/-- C3: for all operand arrays (and any element addition), the dispatch with the
model kernels leaves the same memory, hence the same 16 values of `result`, in the
three modes: four width-4 calls, two width-8 calls and one width-16 call agree. -/
theorem dispatch_modes_agree {F : Type} (add : F → F → F) (progname a4 a8 a16 : String)
    (r4 r8 r16 : List String) (s : State F) :
    ∃ s4 s8 s16,
      dispatch (specKernels add) progname (a4 :: "sse" :: r4) s = .running s4 ∧
      dispatch (specKernels add) progname (a8 :: "avx2" :: r8) s = .running s8 ∧
      dispatch (specKernels add) progname (a16 :: "avx512" :: r16) s = .running s16 ∧
      s4.mem = s8.mem ∧ s8.mem = s16.mem ∧
      s4.mem.elems .result = s8.mem.elems .result ∧
      s8.mem.elems .result = s16.mem.elems .result ∧
      s16.mem.elems .result = (List.range 16).map (fun i => add (s.mem .x_1 i) (s.mem .x_2 i)) := by
  obtain ⟨c4, h4⟩ := dispatch_spec_running add progname (a4 :: "sse" :: r4) s
    (Or.inr ⟨"sse", by decide, by simp⟩)
  obtain ⟨c8, h8⟩ := dispatch_spec_running add progname (a8 :: "avx2" :: r8) s
    (Or.inr ⟨"avx2", by decide, by simp⟩)
  obtain ⟨c16, h16⟩ := dispatch_spec_running add progname (a16 :: "avx512" :: r16) s
    (Or.inr ⟨"avx512", by decide, by simp⟩)
  refine ⟨_, _, _, h4, h8, h16, rfl, rfl, rfl, rfl, ?_⟩
  simp only [sumState, Mem.elems]
  apply List.map_congr_left
  intro i hi
  exact sumMem_result add s.mem i (List.mem_range.mp hi)

/-- The outcome of `main` on an argument vector with an unsupported first argument. -/
theorem main_of_invalid {F : Type} (ks : Kernels F) (lit : Nat → F) (fmt : F → String)
    (progname arg0 arg : String) (rest : List String) (h : arg ∉ supportedModes) :
    main ks lit fmt progname (arg0 :: arg :: rest) =
      (EXIT_FAILURE, { initState lit with
        stderr := ("" ++ (progname ++ ": " ++ ("invalid algorithm: " ++ arg) ++ "\n")) }) := by
  unfold main
  rw [dispatch_invalid ks progname arg0 arg rest (initState lit) h]
  rfl

theorem main_supported_status {F : Type} (ks : Kernels F) (lit : Nat → F) (fmt : F → String)
    (progname : String) (argv : List String)
    (h : argv.length ≤ 1 ∨ ∃ mode ∈ supportedModes, argv[1]? = some mode) :
    (main ks lit fmt progname argv).1 = 0 := by
  obtain ⟨s', hs, -⟩ := dispatch_supported ks progname argv (initState lit) h
  rw [main_of_running ks lit fmt progname argv s' hs]

/-- C4: `main` exits with a non-zero status exactly when `argv[1]` is present and is
none of `"sse"`, `"avx2"`, `"avx512"`; and then the status is `EXIT_FAILURE`, stderr is
the program name followed by `": invalid algorithm: "`, the argument and a newline
(so it contains the argument), no kernel has been invoked and stdout is empty. -/
theorem main_fails_iff_invalid_mode {F : Type} (ks : Kernels F) (lit : Nat → F)
    (fmt : F → String) (progname : String) (argv : List String) :
    ((main ks lit fmt progname argv).1 ≠ 0 ↔
      ∃ arg, argv[1]? = some arg ∧ arg ∉ supportedModes) ∧
    (∀ arg, argv[1]? = some arg → arg ∉ supportedModes →
      (main ks lit fmt progname argv).1 = EXIT_FAILURE ∧
      (main ks lit fmt progname argv).1 ≠ 0 ∧
      (main ks lit fmt progname argv).2.stderr
        = progname ++ ": " ++ ("invalid algorithm: " ++ arg) ++ "\n" ∧
      (∃ pre post, (main ks lit fmt progname argv).2.stderr = pre ++ arg ++ post) ∧
      (main ks lit fmt progname argv).2.calls = [] ∧
      (main ks lit fmt progname argv).2.stdout = "") := by
  have key : ∀ arg, argv[1]? = some arg → arg ∉ supportedModes →
      (main ks lit fmt progname argv).1 = EXIT_FAILURE ∧
      (main ks lit fmt progname argv).1 ≠ 0 ∧
      (main ks lit fmt progname argv).2.stderr
        = progname ++ ": " ++ ("invalid algorithm: " ++ arg) ++ "\n" ∧
      (∃ pre post, (main ks lit fmt progname argv).2.stderr = pre ++ arg ++ post) ∧
      (main ks lit fmt progname argv).2.calls = [] ∧
      (main ks lit fmt progname argv).2.stdout = "" := by
    intro arg harg hbad
    rcases argv_cases argv with h1 | ⟨arg0, a, rest, rfl⟩
    · rcases argv with _ | ⟨a, _ | ⟨b, r⟩⟩ <;> simp at harg h1
    · simp only [List.getElem?_cons_succ, List.getElem?_cons_zero, Option.some.injEq] at harg
      subst harg
      rw [main_of_invalid ks lit fmt progname arg0 a rest hbad]
      refine ⟨rfl, by simp [EXIT_FAILURE], ?_, ⟨progname ++ ": " ++ "invalid algorithm: ", "\n", ?_⟩, rfl, rfl⟩
      · simp only [String.empty_append]
      · simp only [String.empty_append, String.append_assoc]
  refine ⟨⟨fun hne => ?_, fun ⟨arg, harg, hbad⟩ => (key arg harg hbad).2.1⟩, key⟩
  by_contra hno
  apply hne
  apply main_supported_status
  rcases argv_cases argv with h1 | ⟨arg0, a, rest, rfl⟩
  · exact Or.inl h1
  · right
    by_contra hns
    exact hno ⟨a, by simp, fun hmem => hns ⟨a, hmem, by simp⟩⟩

/-- Witness of C4: the arguments `"bogus"`, the empty string and `"SSE"` are rejected,
with the diagnostic naming them, no kernel call and no output. -/
theorem main_fails_iff_invalid_mode_witness :
    ("bogus" ∉ supportedModes ∧ "" ∉ supportedModes ∧ "SSE" ∉ supportedModes) ∧
    (main (specKernels Nat.add) id (fun _ => "") "demo" ["demo", "bogus"]).1 ≠ 0 ∧
    (main (specKernels Nat.add) id (fun _ => "") "demo" ["demo", "bogus"]).2.stderr
      = "demo: invalid algorithm: bogus\n" ∧
    (main (specKernels Nat.add) id (fun _ => "") "demo" ["demo", "bogus"]).2.calls = [] ∧
    (main (specKernels Nat.add) id (fun _ => "") "demo" ["demo", "bogus"]).2.stdout = "" ∧
    (main (specKernels Nat.add) id (fun _ => "") "demo" ["demo", ""]).1 ≠ 0 ∧
    (main (specKernels Nat.add) id (fun _ => "") "demo" ["demo", "SSE"]).1 ≠ 0 :=
  have hb := (main_fails_iff_invalid_mode (specKernels Nat.add) id (fun _ => "") "demo"
    ["demo", "bogus"]).2 "bogus" rfl (by decide)
  ⟨⟨by decide, by decide, by decide⟩, hb.2.1, hb.2.2.1, hb.2.2.2.2.1, hb.2.2.2.2.2,
    ((main_fails_iff_invalid_mode (specKernels Nat.add) id (fun _ => "") "demo"
      ["demo", ""]).2 "" rfl (by decide)).2.1,
    ((main_fails_iff_invalid_mode (specKernels Nat.add) id (fun _ => "") "demo"
      ["demo", "SSE"]).2 "SSE" rfl (by decide)).2.1⟩

/-- C5: with no mode argument (`argc ≤ 1`) `main` has the same outcome as with the
mode argument `"sse"`: the same four width-4 kernel calls, the same memory, the
same output on both streams, and exit status 0. -/
theorem main_default_eq_sse {F : Type} (ks : Kernels F) (lit : Nat → F) (fmt : F → String)
    (p1 p2 arg0 : String) (rest argv : List String) (h : argv.length ≤ 1) :
    main ks lit fmt p1 argv = main ks lit fmt p2 (arg0 :: "sse" :: rest) ∧
    (main ks lit fmt p1 argv).1 = 0 ∧
    (main ks lit fmt p1 argv).2.calls = sseCalls ∧
    (∀ c ∈ (main ks lit fmt p1 argv).2.calls, c.kernel = .sse ∧ c.kernel.width = 4) := by
  have e1 := main_of_running ks lit fmt p1 argv _
    (dispatch_sse ks p1 argv (initState lit) (Or.inl h))
  have e2 := main_of_running ks lit fmt p2 (arg0 :: "sse" :: rest) _
    (dispatch_sse ks p2 (arg0 :: "sse" :: rest) (initState lit) (Or.inr (by simp)))
  refine ⟨by rw [e1, e2], by rw [e1], by rw [e1]; rfl, ?_⟩
  rw [e1]
  simp only [invoke, initState, List.nil_append, List.cons_append]
  intro c hc
  simp only [List.mem_cons, List.mem_singleton, List.not_mem_nil, or_false] at hc
  rcases hc with rfl | rfl | rfl | rfl <;> exact ⟨rfl, rfl⟩

/-- Witness of C5: the argument vector holding only the program name. -/
theorem main_default_eq_sse_witness :
    ["demo"].length ≤ 1 ∧
    main (specKernels Nat.add) id (fun n => toString n) "demo" ["demo"]
      = main (specKernels Nat.add) id (fun n => toString n) "demo" ["demo", "sse"] :=
  ⟨by decide, (main_default_eq_sse (specKernels Nat.add) id (fun n => toString n)
    "demo" "demo" "demo" [] ["demo"] (by decide)).1⟩

theorem main_calls_sse {F : Type} (ks : Kernels F) (lit : Nat → F) (fmt : F → String)
    (progname : String) (argv : List String) (h : argv.length ≤ 1 ∨ argv[1]? = some "sse") :
    (main ks lit fmt progname argv).2.calls = sseCalls := by
  rw [main_of_running ks lit fmt progname argv _ (dispatch_sse ks progname argv (initState lit) h)]
  rfl

theorem main_calls_avx2 {F : Type} (ks : Kernels F) (lit : Nat → F) (fmt : F → String)
    (progname arg0 : String) (rest : List String) :
    (main ks lit fmt progname (arg0 :: "avx2" :: rest)).2.calls = avx2Calls := by
  rw [main_of_running ks lit fmt progname _ _ (dispatch_avx2 ks progname arg0 rest (initState lit))]
  rfl

theorem main_calls_avx512 {F : Type} (ks : Kernels F) (lit : Nat → F) (fmt : F → String)
    (progname arg0 : String) (rest : List String) :
    (main ks lit fmt progname (arg0 :: "avx512" :: rest)).2.calls = avx512Calls := by
  rw [main_of_running ks lit fmt progname _ _
    (dispatch_avx512 ks progname arg0 rest (initState lit))]
  rfl

/-- C6: the number of kernel invocations is `16 / W`: mode `"sse"` (or no argument)
calls `add_arrays_sse` exactly 4 times, mode `"avx2"` calls `add_arrays_avx2` exactly
twice, mode `"avx512"` calls `add_arrays_avx512` exactly once, and in each mode the
kernels of the other widths are not called. -/
theorem main_kernel_call_counts {F : Type} (ks : Kernels F) (lit : Nat → F)
    (fmt : F → String) (progname arg0 : String) (rest : List String) :
    (countCalls .sse (main ks lit fmt progname (arg0 :: "sse" :: rest)).2.calls = 4 ∧
      countCalls .sse (main ks lit fmt progname (arg0 :: "sse" :: rest)).2.calls
        = 16 / KernelId.sse.width ∧
      countCalls .avx2 (main ks lit fmt progname (arg0 :: "sse" :: rest)).2.calls = 0 ∧
      countCalls .avx512 (main ks lit fmt progname (arg0 :: "sse" :: rest)).2.calls = 0) ∧
    (countCalls .avx2 (main ks lit fmt progname (arg0 :: "avx2" :: rest)).2.calls = 2 ∧
      countCalls .avx2 (main ks lit fmt progname (arg0 :: "avx2" :: rest)).2.calls
        = 16 / KernelId.avx2.width ∧
      countCalls .sse (main ks lit fmt progname (arg0 :: "avx2" :: rest)).2.calls = 0 ∧
      countCalls .avx512 (main ks lit fmt progname (arg0 :: "avx2" :: rest)).2.calls = 0) ∧
    (countCalls .avx512 (main ks lit fmt progname (arg0 :: "avx512" :: rest)).2.calls = 1 ∧
      countCalls .avx512 (main ks lit fmt progname (arg0 :: "avx512" :: rest)).2.calls
        = 16 / KernelId.avx512.width ∧
      countCalls .sse (main ks lit fmt progname (arg0 :: "avx512" :: rest)).2.calls = 0 ∧
      countCalls .avx2 (main ks lit fmt progname (arg0 :: "avx512" :: rest)).2.calls = 0) ∧
    (countCalls .sse (main ks lit fmt progname []).2.calls = 4 ∧
      countCalls .sse (main ks lit fmt progname [arg0]).2.calls = 4 ∧
      countCalls .avx2 (main ks lit fmt progname [arg0]).2.calls = 0 ∧
      countCalls .avx512 (main ks lit fmt progname [arg0]).2.calls = 0) := by
  rw [main_calls_sse ks lit fmt progname (arg0 :: "sse" :: rest) (Or.inr (by simp)),
    main_calls_avx2, main_calls_avx512,
    main_calls_sse ks lit fmt progname [] (Or.inl (by simp)),
    main_calls_sse ks lit fmt progname [arg0] (Or.inl (by simp))]
  decide

/-- C7: on every successful run (no argument or a supported mode) `main` returns 0
and stdout is the 16 lines for `i = 0..15` in increasing order, line `i` being
`result[i] = ` then the `%.02f` rendering of `result[i]`, then ` == `, then
`2*(i/2)+3` (integer division) and a newline; nothing goes to stderr. -/
theorem main_prints_sixteen_lines {F : Type} (ks : Kernels F) (lit : Nat → F)
    (fmt : F → String) (progname : String) (argv : List String)
    (h : argv.length ≤ 1 ∨ ∃ mode ∈ supportedModes, argv[1]? = some mode) :
    (main ks lit fmt progname argv).1 = 0 ∧
    (main ks lit fmt progname argv).2.stdout =
      String.join ((List.range 16).map (fun i =>
        "result[" ++ toString i ++ "] = " ++ fmt ((main ks lit fmt progname argv).2.mem .result i)
          ++ " == " ++ toString (2 * (i / 2) + 3) ++ "\n")) ∧
    ((List.range 16).map (fun i =>
        "result[" ++ toString i ++ "] = " ++ fmt ((main ks lit fmt progname argv).2.mem .result i)
          ++ " == " ++ toString (2 * (i / 2) + 3) ++ "\n")).length = 16 ∧
    (main ks lit fmt progname argv).2.stderr = "" := by
  obtain ⟨s', hs, hout, herr, -⟩ := dispatch_supported ks progname argv (initState lit) h
  rw [main_of_running ks lit fmt progname argv s' hs]
  refine ⟨rfl, ?_, by simp, ?_⟩
  · simp only [hout, initState, String.empty_append, printf_line, expected]
  · simp only [herr, initState]

/-- Witness of C7: mode `"avx512"` with the model kernels over the naturals, the
elements printed by `toString`. -/
theorem main_prints_sixteen_lines_witness :
    (["demo", "avx512"].length ≤ 1 ∨
      ∃ mode ∈ supportedModes, ["demo", "avx512"][1]? = some mode) ∧
    (main (specKernels Nat.add) id (fun n => toString n) "demo" ["demo", "avx512"]).1 = 0 ∧
    (main (specKernels Nat.add) id (fun n => toString n) "demo" ["demo", "avx512"]).2.stderr = "" :=
  have h : ["demo", "avx512"].length ≤ 1 ∨
      ∃ mode ∈ supportedModes, ["demo", "avx512"][1]? = some mode :=
    Or.inr ⟨"avx512", by decide, rfl⟩
  ⟨h, (main_prints_sixteen_lines (specKernels Nat.add) id (fun n => toString n) "demo"
      ["demo", "avx512"] h).1,
    (main_prints_sixteen_lines (specKernels Nat.add) id (fun n => toString n) "demo"
      ["demo", "avx512"] h).2.2.2⟩

theorem chunked_sse : Chunked .sse sseCalls := by
  refine ⟨by decide, by decide, ?_, ?_, by decide⟩
  · simp only [sseCalls, List.pairwise_cons, List.mem_cons, List.mem_singleton,
      List.not_mem_nil, Call.covers, KernelId.width]
    simp
    refine ⟨⟨?_, ?_, ?_⟩, ⟨?_, ?_⟩, ?_⟩ <;> intros <;> omega
  · simp only [sseCalls, List.mem_cons, List.mem_singleton, List.not_mem_nil, Call.covers,
      KernelId.width]
    simp
    refine ⟨?_, ?_, ?_⟩ <;> intros <;> omega

theorem chunked_avx2 : Chunked .avx2 avx2Calls := by
  refine ⟨by decide, by decide, ?_, ?_, by decide⟩
  · simp only [avx2Calls, List.pairwise_cons, List.mem_cons, List.mem_singleton,
      List.not_mem_nil, Call.covers, KernelId.width]
    simp
    intros
    omega
  · simp only [avx2Calls, List.mem_cons, List.mem_singleton, List.not_mem_nil, Call.covers,
      KernelId.width]
    simp
    intros
    omega

theorem chunked_avx512 : Chunked .avx512 avx512Calls := by
  refine ⟨by decide, by decide, ?_, ?_, by decide⟩
  · simp [avx512Calls]
  · simp [avx512Calls, Call.covers, KernelId.width]

/-- C10: in every supported mode (and with no argument) the kernel calls of `main`,
for the kernel of width `W`, are at offsets `0, W, 2W, ...` below 16 in increasing
order, each with the same offset into `result`, `x_1` and `x_2`, and the index ranges
`[offset, offset + W)` are pairwise disjoint, lie within `[0, 16)`, and cover every
index of `[0, 16)` exactly once. -/
theorem main_calls_chunked {F : Type} (ks : Kernels F) (lit : Nat → F) (fmt : F → String)
    (progname arg0 : String) (rest : List String) :
    Chunked .sse (main ks lit fmt progname (arg0 :: "sse" :: rest)).2.calls ∧
    Chunked .avx2 (main ks lit fmt progname (arg0 :: "avx2" :: rest)).2.calls ∧
    Chunked .avx512 (main ks lit fmt progname (arg0 :: "avx512" :: rest)).2.calls ∧
    Chunked .sse (main ks lit fmt progname [arg0]).2.calls ∧
    Chunked .sse (main ks lit fmt progname []).2.calls := by
  rw [main_calls_sse ks lit fmt progname (arg0 :: "sse" :: rest) (Or.inr (by simp)),
    main_calls_avx2, main_calls_avx512,
    main_calls_sse ks lit fmt progname [] (Or.inl (by simp)),
    main_calls_sse ks lit fmt progname [arg0] (Or.inl (by simp))]
  exact ⟨chunked_sse, chunked_avx2, chunked_avx512, chunked_sse, chunked_sse⟩

/-! ## binary32 addition and the demo operands -/

theorem F32.findExp_eq (n : Nat) : ∀ (cnt k j : Nat), k ≤ j → j < k + cnt → n < 2 ^ (24 + j) →
    (∀ i, k ≤ i → i < j → ¬ n < 2 ^ (24 + i)) → F32.findExp cnt k n = j := by
  intro cnt
  induction cnt with
  | zero => intro k j h1 h2; omega
  | succ cnt ih =>
    intro k j h1 h2 h3 h4
    by_cases hk : n < 2 ^ (24 + k)
    · have : j = k := by
        by_contra hne
        exact h4 k (Nat.le_refl _) (by omega) hk
      subst this
      simp [F32.findExp, hk]
    · have hjk : j ≠ k := fun e => hk (e ▸ h3)
      simp only [F32.findExp, hk, if_false]
      exact ih (k + 1) j (by omega) (by omega) h3 (fun i hi1 hi2 => h4 i (by omega) hi2)

theorem F32.round_mag (neg : Bool) (e : Fin 255) (m : Fin 8388608) :
    F32.round neg (F32.mag e m) = .fin neg e m := by
  obtain ⟨e, he⟩ := e
  obtain ⟨m, hm⟩ := m
  by_cases h0 : e = 0
  · subst h0
    simp [F32.round, F32.mag, hm]
  · have hpos : 0 < 2 ^ (e - 1) := Nat.pow_pos (by decide)
    have hlo : 8388608 * 2 ^ (e - 1) ≤ (8388608 + m) * 2 ^ (e - 1) :=
      Nat.mul_le_mul_right _ (by omega)
    have hhi : (8388608 + m) * 2 ^ (e - 1) < 16777216 * 2 ^ (e - 1) :=
      Nat.mul_lt_mul_of_pos_right (by omega) hpos
    have hk : F32.findExp 254 0 ((8388608 + m) * 2 ^ (e - 1)) = e - 1 := by
      apply F32.findExp_eq _ 254 0 (e - 1) (Nat.zero_le _) (by omega)
      · rw [Nat.pow_add]; exact hhi
      · intro i _ hi hlt
        have : 2 ^ (24 + i) ≤ 8388608 * 2 ^ (e - 1) := by
          have : 2 ^ (24 + i) ≤ 2 ^ (23 + (e - 1)) := Nat.pow_le_pow_right (by decide) (by omega)
          rw [Nat.pow_add 2 23 (e - 1)] at this
          exact this
        omega
    have hn : ¬ (8388608 + m) * 2 ^ (e - 1) < 8388608 := by
      have : 8388608 * 1 ≤ 8388608 * 2 ^ (e - 1) := Nat.mul_le_mul_left _ hpos
      omega
    simp only [F32.round, F32.mag, h0, if_false, hn, dite_false, hk]
    have hq : (8388608 + m) * 2 ^ (e - 1) / 2 ^ (e - 1) = 8388608 + m :=
      Nat.mul_div_cancel _ hpos
    have hr : (8388608 + m) * 2 ^ (e - 1) % 2 ^ (e - 1) = 0 := Nat.mul_mod_left _ _
    simp only [hq, hr]
    have hne : ¬ (2 ^ (e - 1) < 2 * 0 ∨ 2 * 0 = 2 ^ (e - 1) ∧ (8388608 + m) % 2 = 1) := by
      omega
    simp only [hne, if_false]
    have hq1 : ¬ 8388608 + m = 16777216 := by omega
    simp only [hq1, if_false]
    have he1 : e - 1 + 1 = e := by omega
    have hlt : e - 1 + 1 < 255 := by omega
    simp only [hlt, dite_true]
    congr 1
    · exact Fin.ext he1
    · apply Fin.ext
      show (8388608 + m) % 8388608 = m
      omega

/-- Adding `+0` to a non-zero finite binary32 returns it unchanged. -/
theorem F32.add_pos_zero (neg : Bool) (e : Fin 255) (m : Fin 8388608) (h : F32.mag e m ≠ 0) :
    F32.add (.fin neg e m) (.fin false 0 0) = .fin neg e m := by
  have hz : F32.toInt false 0 0 = 0 := by decide
  have hpos : (0 : Int) < (F32.mag e m : Int) := by omega
  simp only [F32.add, hz, Int.add_zero]
  cases neg with
  | false =>
    have h1 : ¬ F32.toInt false e m = 0 := by simp only [F32.toInt]; simp; omega
    have h2 : ¬ F32.toInt false e m < 0 := by simp only [F32.toInt]; simp
    have h3 : (F32.toInt false e m).natAbs = F32.mag e m := by simp only [F32.toInt]; simp
    simp only [h1, if_false, h2, decide_False, h3]
    exact F32.round_mag false e m
  | true =>
    have h1 : ¬ F32.toInt true e m = 0 := by simp only [F32.toInt]; simp; omega
    have h2 : F32.toInt true e m < 0 := by simp only [F32.toInt]; simp; omega
    have h3 : (F32.toInt true e m).natAbs = F32.mag e m := by simp only [F32.toInt]; simp
    simp only [h1, if_false, h2, decide_True, h3]
    exact F32.round_mag true e m

set_option exponentiation.threshold 300 in
set_option maxRecDepth 8000 in
/-- Evaluations of the binary32 model: ties go to even (`2^24 + 1` gives `2^24`,
`2^24 + 3` gives `2^24 + 4`), the largest finite number doubled overflows, opposite
infinities give NaN, `1 + (-1) = +0`, `(-0) + (-0) = -0`, and subnormals add exactly. -/
theorem F32.add_examples :
    F32.add (F32.ofNat 16777216) (F32.ofNat 1) = F32.ofNat 16777216 ∧
    F32.add (F32.ofNat 16777218) (F32.ofNat 1) = F32.ofNat 16777220 ∧
    F32.toBits (F32.add (F32.ofNat 16777216) (F32.ofNat 3)) = 0x4B800002 ∧
    F32.add (.fin false 254 8388607) (.fin false 254 8388607) = .inf false ∧
    F32.add (.inf false) (.inf true) = .nan ∧
    F32.add (F32.ofNat 1) (.fin true 127 0) = .fin false 0 0 ∧
    F32.add (.fin true 0 0) (.fin true 0 0) = .fin true 0 0 ∧
    F32.add (.fin false 0 8388607) (.fin false 0 1) = .fin false 1 0 ∧
    F32.toBits (F32.ofNat 1) = 0x3F800000 := by
  decide

theorem F32.add_comm (a b : F32) : F32.add a b = F32.add b a := by
  cases a with
  | nan => cases b <;> rfl
  | inf s =>
    cases b with
    | nan => rfl
    | inf t =>
      simp only [F32.add]
      by_cases h : s = t
      · subst h; rfl
      · have h2 : ¬ t = s := fun e => h e.symm
        simp [h, h2]
    | fin t f n => rfl
  | fin s e m =>
    cases b with
    | nan => rfl
    | inf t => rfl
    | fin t f n =>
      simp only [F32.add]
      rw [Int.add_comm (F32.toInt t f n), Bool.and_comm t s]

theorem add_arrays_comm {F : Type} (W : Nat) (add : F → F → F)
    (hc : ∀ x y, add x y = add y x) (m : Mem F) (dst a b : Ptr) :
    add_arrays W add m dst a b = add_arrays W add m dst b a := by
  funext arr j
  simp only [add_arrays]
  rw [hc]

theorem sumMem_swapOperands {F : Type} (add : F → F → F) (hc : ∀ x y, add x y = add y x)
    (m : Mem F) : sumMem add m.swapOperands .result = sumMem add m .result := by
  funext j
  simp only [sumMem, sumUpTo, Mem.swapOperands]
  rw [hc]

theorem main_spec_mem {F : Type} (add : F → F → F) (lit : Nat → F) (fmt : F → String)
    (progname : String) (argv : List String)
    (h : argv.length ≤ 1 ∨ ∃ mode ∈ supportedModes, argv[1]? = some mode) :
    (main (specKernels add) lit fmt progname argv).2.mem = sumMem add (initMem lit) := by
  obtain ⟨cs, hs⟩ := dispatch_spec_running add progname argv (initState lit) h
  rw [main_of_running (specKernels add) lit fmt progname argv _ hs]
  rfl

set_option maxRecDepth 8000 in
theorem demo_sums :
    (sumMem F32.add (initMem F32.ofNat)).elems .result =
      [3, 3, 7, 7, 11, 11, 15, 15, 19, 19, 23, 23, 27, 27, 31, 31].map F32.ofNat := by
  decide

set_option maxRecDepth 8000 in
theorem demo_sums_bits :
    ([3, 3, 7, 7, 11, 11, 15, 15, 19, 19, 23, 23, 27, 27, 31, 31].map F32.ofNat).map F32.toBits =
      [0x40400000, 0x40400000, 0x40E00000, 0x40E00000, 0x41300000, 0x41300000,
       0x41700000, 0x41700000, 0x41980000, 0x41980000, 0x41B80000, 0x41B80000,
       0x41D80000, 0x41D80000, 0x41F80000, 0x41F80000] := by
  decide

/-- C2: with the operands hard-coded in `main` and the model kernels over binary32
addition, the array `result` at exit is `[3,3,7,7,11,11,15,15,19,19,23,23,27,27,31,31]`
(as binary32 values, with the encodings `0x40400000, ...`) for each of the modes
`"sse"`, `"avx2"`, `"avx512"` and when no mode argument is given. -/
theorem main_demo_result (fmt : F32 → String) (progname : String) (argv : List String)
    (h : argv.length ≤ 1 ∨ ∃ mode ∈ supportedModes, argv[1]? = some mode) :
    (main (specKernels F32.add) F32.ofNat fmt progname argv).2.mem.elems .result =
      [3, 3, 7, 7, 11, 11, 15, 15, 19, 19, 23, 23, 27, 27, 31, 31].map F32.ofNat ∧
    ((main (specKernels F32.add) F32.ofNat fmt progname argv).2.mem.elems .result).map F32.toBits =
      [0x40400000, 0x40400000, 0x40E00000, 0x40E00000, 0x41300000, 0x41300000,
       0x41700000, 0x41700000, 0x41980000, 0x41980000, 0x41B80000, 0x41B80000,
       0x41D80000, 0x41D80000, 0x41F80000, 0x41F80000] := by
  rw [main_spec_mem F32.add F32.ofNat fmt progname argv h, demo_sums]
  exact ⟨rfl, demo_sums_bits⟩

/-- Witness of C2: mode `"avx2"`. -/
theorem main_demo_result_witness :
    (["demo", "avx2"].length ≤ 1 ∨
      ∃ mode ∈ supportedModes, ["demo", "avx2"][1]? = some mode) ∧
    (main (specKernels F32.add) F32.ofNat (fun _ => "") "demo" ["demo", "avx2"]).2.mem.elems
        .result =
      [3, 3, 7, 7, 11, 11, 15, 15, 19, 19, 23, 23, 27, 27, 31, 31].map F32.ofNat :=
  have h : ["demo", "avx2"].length ≤ 1 ∨
      ∃ mode ∈ supportedModes, ["demo", "avx2"][1]? = some mode :=
    Or.inr ⟨"avx2", by decide, rfl⟩
  ⟨h, (main_demo_result (fun _ => "") "demo" ["demo", "avx2"] h).1⟩

set_option maxRecDepth 8000 in
theorem demo_expected_agreement :
    sumMem F32.add (initMem F32.ofNat) .result 2 = F32.add (F32.ofNat 3) (F32.ofNat 4) ∧
    sumMem F32.add (initMem F32.ofNat) .result 2 = F32.ofNat 7 ∧
    expected 2 = 5 ∧
    sumMem F32.add (initMem F32.ofNat) .result 2 ≠ F32.ofNat (expected 2) ∧
    (List.range 16).filter (fun i =>
      sumMem F32.add (initMem F32.ofNat) .result i = F32.ofNat (expected i)) = [0, 1] := by
  decide

/-- C8 (the code departs from the claim): with no mode argument `result[2]` is
`x_1[2] + x_2[2] = 3 + 4 = 7`, while the reference value printed next to it is
`2*(2/2)+3 = 5`; the two agree at index 0 and 1 only. -/
theorem expected_disagrees_with_result (fmt : F32 → String) (progname arg0 : String) :
    (main (specKernels F32.add) F32.ofNat fmt progname [arg0]).2.mem .result 2
      = F32.add (F32.ofNat 3) (F32.ofNat 4) ∧
    (main (specKernels F32.add) F32.ofNat fmt progname [arg0]).2.mem .result 2 = F32.ofNat 7 ∧
    expected 2 = 5 ∧
    (main (specKernels F32.add) F32.ofNat fmt progname [arg0]).2.mem .result 2
      ≠ F32.ofNat (expected 2) ∧
    (List.range 16).filter (fun i =>
      (main (specKernels F32.add) F32.ofNat fmt progname [arg0]).2.mem .result i
        = F32.ofNat (expected i)) = [0, 1] := by
  rw [main_spec_mem F32.add F32.ofNat fmt progname [arg0] (Or.inl (by simp))]
  exact demo_expected_agreement

/-- C9: each model kernel over binary32 addition gives the same memory when its
operand pointers `a` and `b` are exchanged, and for every supported mode the
dispatch on a memory with the contents of `x_1` and `x_2` exchanged yields the same
16 elements of `result`. -/
theorem kernels_commute (k : KernelId) (m : Mem F32) (dst a b : Ptr)
    (progname arg0 : String) (rest : List String) (s : State F32) :
    (specKernels F32.add).get k m dst a b = (specKernels F32.add).get k m dst b a ∧
    (∀ i, i < k.width → ((specKernels F32.add).get k m dst a b).load (dst.idx i)
      = ((specKernels F32.add).get k m dst b a).load (dst.idx i)) ∧
    (∀ mode ∈ supportedModes, ∃ s1 s2,
      dispatch (specKernels F32.add) progname (arg0 :: mode :: rest) s = .running s1 ∧
      dispatch (specKernels F32.add) progname (arg0 :: mode :: rest)
        { s with mem := s.mem.swapOperands } = .running s2 ∧
      s1.mem.elems .result = s2.mem.elems .result) := by
  have hk : (specKernels F32.add).get k m dst a b = (specKernels F32.add).get k m dst b a := by
    cases k <;> exact add_arrays_comm _ F32.add F32.add_comm m dst a b
  refine ⟨hk, fun i _ => by rw [hk], fun mode hmode => ?_⟩
  obtain ⟨c1, h1⟩ := dispatch_spec_running F32.add progname (arg0 :: mode :: rest) s
    (Or.inr ⟨mode, hmode, by simp⟩)
  obtain ⟨c2, h2⟩ := dispatch_spec_running F32.add progname (arg0 :: mode :: rest)
    { s with mem := s.mem.swapOperands } (Or.inr ⟨mode, hmode, by simp⟩)
  refine ⟨_, _, h1, h2, ?_⟩
  simp only [sumState, Mem.elems]
  rw [sumMem_swapOperands F32.add F32.add_comm]

end Lsx86features
